import Mathlib

/-!
Verification of the quiz-session core of the flashcard quiz application
(`quiz.py`).  The data model (`Question`, the engine state, the attempt
log) and the operations (`load_questions`, `QuizEngine.start`,
`QuizEngine.submit`, `QuizEngine.is_finished`,
`QuizEngine.duration_seconds`, `DB.save_attempt`, `DB.recent_attempts`)
are shallowly embedded as Lean functions.  Wall-clock time is passed
explicitly as a rational number of seconds; the random number generator
is a field holding the permutation function `random.Random.shuffle`
applies to its argument; Python exceptions become explicit error
results.
-/

/-- One question record, mirroring the frozen `Question` dataclass. -/
structure Question where
  category : String
  question : String
  options : List String
  answer : String
  difficulty : String
deriving Repr, DecidableEq

/-- One raw JSON record before validation: each field may be absent,
mirroring a Python dict that may lack keys. -/
structure RawQuestion where
  question : Option String
  options : Option (List String)
  answer : Option String
  difficulty : Option String
deriving Repr, DecidableEq

/-- Errors `load_questions` can signal: `FileNotFoundError` when the
source cannot be located, `KeyError` when a required field is absent
from a record (the string names the missing key). -/
inductive LoadErr where
  | notFound
  | keyError (key : String)
deriving Repr, DecidableEq

/-- Building one `Question` from a raw record, mirroring the dict
accesses in the body of the loop of `load_questions`: `q["question"]`,
`list(q["options"])`, `q["answer"]` raise `KeyError` when absent, and
`q.get("difficulty", "Easy")` defaults.  No check that the answer is
among the options is performed. -/
def parseQuestion (category : String) (q : RawQuestion) : Except LoadErr Question :=
  match q.question with
  | none => .error (.keyError "question")
  | some qt =>
    match q.options with
    | none => .error (.keyError "options")
    | some opts =>
      match q.answer with
      | none => .error (.keyError "answer")
      | some ans =>
        .ok { category := category, question := qt, options := opts,
              answer := ans, difficulty := q.difficulty.getD "Easy" }

/-- `load_questions`: the source is `none` when no candidate file
exists (then `FileNotFoundError` is raised), otherwise the parsed JSON
mapping from category name to list of raw records.  Records are parsed
in order; the first failure aborts the load. -/
def load_questions (source : Option (List (String × List RawQuestion))) :
    Except LoadErr (List Question) :=
  match source with
  | none => .error .notFound
  | some raw => do
    let lists ← raw.mapM (fun ci => ci.2.mapM (parseQuestion ci.1))
    return lists.flatten

/-- The mutable fields of `QuizEngine`, plus the immutable question
bank and the injected random source.  `rng` is the permutation
`random.Random.shuffle` applies: it maps a list to its shuffled
rearrangement. -/
structure QuizEngine where
  questions_all : List Question
  rng : List Nat → List Nat
  pool : List Question
  order : List Nat
  index : Nat
  score : Nat
  started_at : ℚ
  category : String
  difficulty : String

/-- `QuizEngine.reset_state`: clears the session fields, keeping the
question bank and random source. -/
def QuizEngine.reset_state (e : QuizEngine) : QuizEngine :=
  { e with pool := [], order := [], index := 0, score := 0,
           started_at := 0, category := "Any", difficulty := "Any" }

/-- `QuizEngine.__init__`: store the questions and rng, then
`reset_state`. -/
def QuizEngine.init (questions : List Question) (rng : List Nat → List Nat) :
    QuizEngine :=
  QuizEngine.reset_state
    { questions_all := questions, rng := rng, pool := [], order := [],
      index := 0, score := 0, started_at := 0,
      category := "Any", difficulty := "Any" }

/-- The pool computation inside `start`: filter by category
(pass-through on "Any"), then by difficulty (pass-through on "Any"). -/
def filterPool (qs : List Question) (category difficulty : String) :
    List Question :=
  let p1 := qs.filter (fun q => category == "Any" || q.category == category)
  if difficulty != "Any" then p1.filter (fun q => q.difficulty == difficulty)
  else p1

/-- The clamping of the requested count in `start`:
`min(max(1, int(count)), len(self.pool))`. -/
def clampCount (count : Int) (poolSize : Nat) : Nat :=
  (min (max 1 count) (poolSize : Int)).toNat

/-- Result of `start`.  Python raises `ValueError` with the engine
object already holding the partial mutations made before the raise, so
the error constructor carries the engine state at the moment of the
raise. -/
inductive StartResult where
  | noMatch (e : QuizEngine)
  | ok (e : QuizEngine)

/-- `QuizEngine.start`: sets category and difficulty, computes and
stores the filtered pool, raises `ValueError` if it is empty (with
those three fields already mutated), otherwise clamps the count, takes
a prefix of the shuffled index list as the order and resets index,
score and the start timestamp.  `now` is the value `time.time()`
returns during the call. -/
def QuizEngine.start (e : QuizEngine) (category difficulty : String)
    (count : Int) (now : ℚ) : StartResult :=
  let e1 := { e with category := category, difficulty := difficulty }
  let pool := filterPool e1.questions_all category difficulty
  let e2 := { e1 with pool := pool }
  if pool.isEmpty then
    .noMatch e2
  else
    let c := clampCount count pool.length
    let indices := e2.rng (List.range pool.length)
    .ok { e2 with order := indices.take c, index := 0, score := 0,
                  started_at := now }

/-- `QuizEngine.total`: the length of the order. -/
def QuizEngine.total (e : QuizEngine) : Nat :=
  e.order.length

/-- `QuizEngine.current`: `self.pool[self.order[self.index]]`; `none`
models the `IndexError` either indexing can raise. -/
def QuizEngine.current (e : QuizEngine) : Option Question :=
  match e.order[e.index]? with
  | none => none
  | some i => e.pool[i]?

/-- `QuizEngine.is_finished`: `self.index >= self.total`. -/
def QuizEngine.is_finished (e : QuizEngine) : Bool :=
  decide (e.index ≥ e.total)

/-- The error `submit` can signal: the `IndexError` raised by
`current()` when the position is out of range.  It is raised before any
mutation, so the erroring call returns no new state. -/
inductive SubmitErr where
  | indexError
deriving Repr, DecidableEq

/-- The comparison `selected == q.answer` of `submit`, where
`selected` is `Optional[str]`: `None` never equals a string, otherwise
exact string equality. -/
def selEq (selected : Option String) (answer : String) : Bool :=
  match selected with
  | none => false
  | some s => s == answer

/-- `QuizEngine.submit`: look up the current question (raising
`IndexError` if out of range), compare the selection to its answer by
exact string equality (`None` never equals a string), increment the
score iff correct, advance the position by one, and return whether the
answer was correct. -/
def QuizEngine.submit (e : QuizEngine) (selected : Option String) :
    Except SubmitErr (QuizEngine × Bool) :=
  match e.current with
  | none => .error .indexError
  | some q =>
    let correct : Bool := selEq selected q.answer
    .ok ({ e with score := if correct then e.score + 1 else e.score,
                  index := e.index + 1 }, correct)

/-- `QuizEngine.duration_seconds`: `int(max(0, time.time() - self.started_at))`.
The argument of `int` is non-negative, so truncation equals floor. -/
def QuizEngine.duration_seconds (e : QuizEngine) (now : ℚ) : ℤ :=
  Int.floor (max 0 (now - e.started_at))

/-- Sequential `submit` calls: the session driven through a list of
selections, aborting at the first error. -/
def submitRun (e : QuizEngine) (sels : List (Option String)) :
    Except SubmitErr QuizEngine :=
  match sels with
  | [] => .ok e
  | s :: rest =>
    match e.submit s with
    | .error err => .error err
    | .ok (e', _) => submitRun e' rest

/-- One row of the `attempts` table. -/
structure Attempt where
  timestamp : String
  category : String
  difficulty : String
  score : Int
  total : Int
  duration_seconds : Int
deriving Repr, DecidableEq

/-- `DB.save_attempt`: the table in insertion order (ascending `id`);
an insert appends one row at the end.  `ts` is the formatted timestamp
`time.strftime` produced during the call. -/
def save_attempt (db : List Attempt) (ts category difficulty : String)
    (score total duration_seconds : Int) : List Attempt :=
  db ++ [{ timestamp := ts, category := category, difficulty := difficulty,
           score := score, total := total,
           duration_seconds := duration_seconds }]

/-- `DB.recent_attempts`: `ORDER BY id DESC LIMIT ?` — the rows newest
first, up to `limit`. -/
def recent_attempts (db : List Attempt) (limit : Nat) : List Attempt :=
  db.reverse.take limit

/-- The session invariants of the spec: `0 ≤ score ≤ position` and
`position ≤ length(order)` (the lower bounds are inherent to `Nat`). -/
def SessionInv (e : QuizEngine) : Prop :=
  e.score ≤ e.index ∧ e.index ≤ e.order.length

/-- Well-formedness of the order: every entry indexes into the pool. -/
def OrderValid (e : QuizEngine) : Prop :=
  ∀ i ∈ e.order, i < e.pool.length

/-- A sample question used as concrete input for witnesses. -/
def mathQuestion : Question :=
  { category := "Math", question := "What is 1 plus 1?",
    options := ["1", "2"], answer := "2", difficulty := "Easy" }

/-- A freshly constructed engine over a one-question bank with the
identity permutation as injected random source: it is Idle. -/
def idleEngine : QuizEngine :=
  QuizEngine.init [mathQuestion] id

/-- Helper: an `Except`-valued `mapM` cannot succeed when some element
of the list fails. -/
theorem exceptMapM_ne_ok {α β ε : Type} (f : α → Except ε β) :
    ∀ (l : List α) (a : α), a ∈ l → ∀ err : ε, f a = .error err →
      ∀ res : List β, l.mapM f ≠ .ok res := by
  intro l
  induction l with
  | nil => intro a ha; cases ha
  | cons b t ih =>
    intro a ha err herr res hok
    rw [List.mapM_cons] at hok
    cases hfb : f b with
    | error eb =>
      rw [hfb] at hok
      simp only [Bind.bind, Except.bind] at hok
      cases hok
    | ok x =>
      rw [hfb] at hok
      cases hmt : t.mapM f with
      | error et =>
        rw [hmt] at hok
        simp only [Bind.bind, Except.bind] at hok
        cases hok
      | ok xs =>
        rcases List.mem_cons.mp ha with h1 | h2
        · subst h1; rw [herr] at hfb; cases hfb
        · exact ih a h2 err herr xs hmt

/-- Helper: a raw record with a missing required field never parses. -/
theorem parseQuestion_error_of_missing (cat : String) (q : RawQuestion)
    (h : q.question = none ∨ q.options = none ∨ q.answer = none) :
    ∃ err, parseQuestion cat q = .error err := by
  rcases q with ⟨qq, qo, qa, qd⟩
  cases qq with
  | none => exact ⟨.keyError "question", rfl⟩
  | some qt =>
    cases qo with
    | none => exact ⟨.keyError "options", rfl⟩
    | some opts =>
      cases qa with
      | none => exact ⟨.keyError "answer", rfl⟩
      | some ans => simp at h

/-- Helper: the fields of the engine a successful `start` returns. -/
theorem start_ok_fields (e e' : QuizEngine) (c d : String) (n : Int) (now : ℚ)
    (h : e.start c d n now = .ok e') :
    e'.pool = filterPool e.questions_all c d ∧
    e'.order = (e.rng (List.range e'.pool.length)).take (clampCount n e'.pool.length) ∧
    e'.index = 0 ∧ e'.score = 0 ∧ e'.started_at = now ∧
    e'.category = c ∧ e'.difficulty = d ∧ e'.rng = e.rng ∧
    e'.questions_all = e.questions_all ∧
    e'.pool ≠ [] := by
  simp only [QuizEngine.start] at h
  split at h
  · cases h
  · cases h
    refine ⟨rfl, rfl, rfl, rfl, rfl, rfl, rfl, rfl, rfl, ?_⟩
    rename_i hne
    simpa [List.isEmpty_iff] using hne

/-- C1: when the filtered pool is empty, `start` raises with the
category, difficulty and pool fields already mutated; the remaining
session fields (order, position, score, start timestamp) and the
question bank and rng are untouched, so no session is started. -/
theorem start_noMatch_partial_mutation (e : QuizEngine)
    (category difficulty : String) (count : Int) (now : ℚ)
    (h : filterPool e.questions_all category difficulty = []) :
    e.start category difficulty count now =
      .noMatch { e with category := category, difficulty := difficulty,
                        pool := [] } := by
  unfold QuizEngine.start
  simp [h]

/-- C1 witness: the concrete Idle engine over a Math question, started
with the non-matching filters History and Hard. -/
theorem start_noMatch_partial_mutation_witness :
    QuizEngine.start idleEngine "History" "Hard" 5 0 =
      .noMatch { idleEngine with category := "History", difficulty := "Hard",
                                 pool := [] } :=
  start_noMatch_partial_mutation idleEngine "History" "Hard" 5 0 (by rfl)

/-- C1 counterexample: starting the Idle engine (whose category field
holds "Any") with non-matching filters raises, but the category field
now holds "History": the engine state is not exactly as it was before
the call. -/
theorem start_noMatch_mutates_category :
    QuizEngine.start idleEngine "History" "Hard" 5 0 =
      .noMatch { idleEngine with category := "History", difficulty := "Hard",
                                 pool := [] } ∧
    idleEngine.category = "Any" ∧ ("History" : String) ≠ "Any" := by
  refine ⟨by rfl, rfl, by decide⟩

/-- C2: the load contract as the code implements it.  A missing source
raises `FileNotFoundError`; a record missing a required field makes the
whole load fail (`KeyError`); but a record whose three required fields
are present always parses, whether or not its answer appears among its
options. -/
theorem load_questions_contract :
    load_questions none = .error .notFound ∧
    (∀ (raw : List (String × List RawQuestion)) (cat : String)
       (items : List RawQuestion) (q : RawQuestion) (qs : List Question),
       (cat, items) ∈ raw → q ∈ items →
       (q.question = none ∨ q.options = none ∨ q.answer = none) →
       load_questions (some raw) ≠ .ok qs) ∧
    (∀ (cat qt : String) (opts : List String) (ans : String)
       (diff : Option String),
       parseQuestion cat
         { question := some qt, options := some opts, answer := some ans,
           difficulty := diff } =
         .ok { category := cat, question := qt, options := opts,
               answer := ans, difficulty := diff.getD "Easy" }) := by
  refine ⟨rfl, ?_, ?_⟩
  · intro raw cat items q qs hmem hq hmiss hok
    obtain ⟨err, herr⟩ := parseQuestion_error_of_missing cat q hmiss
    cases hin : items.mapM (parseQuestion cat) with
    | ok ys => exact exceptMapM_ne_ok (parseQuestion cat) items q hq err herr ys hin
    | error einner =>
      have houter :
          ∀ res, raw.mapM (fun ci => ci.2.mapM (parseQuestion ci.1)) ≠ .ok res :=
        exceptMapM_ne_ok (fun ci => ci.2.mapM (parseQuestion ci.1)) raw
          (cat, items) hmem einner (by simpa using hin)
      simp only [load_questions] at hok
      cases hmo : raw.mapM (fun ci => ci.2.mapM (parseQuestion ci.1)) with
      | error e2 =>
        rw [hmo] at hok
        simp only [Bind.bind, Except.bind] at hok
        cases hok
      | ok ls => exact houter ls hmo
  · intro cat qt opts ans diff
    rfl

/-- C2 witness: the second conjunct applied to a concrete source whose
single record lacks the `answer` key: loading it cannot succeed. -/
theorem load_questions_contract_witness :
    load_questions (some [("Geo",
      [{ question := some "Capital of X?", options := some ["A", "B"],
         answer := none, difficulty := none }])]) ≠ .ok [] :=
  load_questions_contract.2.1
    [("Geo", [{ question := some "Capital of X?", options := some ["A", "B"],
                answer := none, difficulty := none }])]
    "Geo"
    [{ question := some "Capital of X?", options := some ["A", "B"],
       answer := none, difficulty := none }]
    { question := some "Capital of X?", options := some ["A", "B"],
      answer := none, difficulty := none }
    [] (by simp) (by simp) (by simp)

/-- C2 counterexample: a record whose answer "C" is not among its
options loads successfully into a `Question` violating the
answer-in-options invariant, so loading does not fail on it. -/
theorem load_questions_no_answer_check :
    load_questions (some [("Geo",
      [{ question := some "Capital of X?", options := some ["A", "B"],
         answer := some "C", difficulty := none }])]) =
      .ok [{ category := "Geo", question := "Capital of X?",
             options := ["A", "B"], answer := "C", difficulty := "Easy" }] ∧
    ("C" : String) ∉ (["A", "B"] : List String) := by
  exact ⟨by rfl, by decide⟩

/-- Helper: a successful `start` under a permuting rng yields an order
that is a prefix of a permutation of the pool's indices: its length is
the clamped count, it has no duplicates, and every entry indexes into
the pool. -/
theorem start_ok_order (e e' : QuizEngine) (c d : String) (n : Int) (now : ℚ)
    (hperm : ∀ l, (e.rng l).Perm l)
    (h : e.start c d n now = .ok e') :
    e'.total = clampCount n e'.pool.length ∧
    e'.order.Nodup ∧
    OrderValid e' := by
  obtain ⟨hpool, horder, hidx, hsc, hst, hcat, hdiff, hrng, hqa, hne⟩ :=
    start_ok_fields e e' c d n now h
  have hpermr : (e.rng (List.range e'.pool.length)).Perm
      (List.range e'.pool.length) := hperm _
  have hlenr : (e.rng (List.range e'.pool.length)).length =
      e'.pool.length := by
    simpa using hpermr.length_eq
  refine ⟨?_, ?_, ?_⟩
  · rw [QuizEngine.total, horder, List.length_take, hlenr]
    have hle : clampCount n e'.pool.length ≤ e'.pool.length := by
      unfold clampCount
      calc (min (max 1 n) (e'.pool.length : Int)).toNat
          ≤ ((e'.pool.length : Int)).toNat :=
            Int.toNat_le_toNat (min_le_right _ _)
        _ = e'.pool.length := Int.toNat_natCast _
    exact Nat.min_eq_left hle
  · rw [horder]
    exact List.Nodup.sublist (List.take_sublist _ _)
      ((hpermr.nodup_iff).mpr (List.nodup_range _))
  · intro i hi
    rw [horder] at hi
    have hmem : i ∈ e.rng (List.range e'.pool.length) :=
      (List.take_sublist _ _).mem hi
    exact List.mem_range.mp (hpermr.mem_iff.mp hmem)

/-- C3: the session invariants `score ≤ position ≤ length(order)` hold
after a successful `start`, are preserved by every successful `submit`,
and under them the session is finished exactly when the position equals
the length of the order. -/
theorem session_invariants :
    (∀ (e e' : QuizEngine) (c d : String) (n : Int) (now : ℚ),
        e.start c d n now = .ok e' → SessionInv e') ∧
    (∀ (e e' : QuizEngine) (s : Option String) (b : Bool),
        SessionInv e → e.submit s = .ok (e', b) → SessionInv e') ∧
    (∀ e : QuizEngine, SessionInv e →
        (e.is_finished = true ↔ e.index = e.order.length)) := by
  refine ⟨?_, ?_, ?_⟩
  · intro e e' c d n now h
    obtain ⟨-, -, hidx, hsc, -⟩ := start_ok_fields e e' c d n now h
    exact ⟨by rw [hsc, hidx], by rw [hidx]; exact Nat.zero_le _⟩
  · intro e e' s b hinv h
    cases hc : e.current with
    | none =>
      simp only [QuizEngine.submit, hc] at h
      cases h
    | some q =>
      have hidx : e.index < e.order.length := by
        by_contra hge
        push_neg at hge
        have hnone : e.order[e.index]? = none := List.getElem?_eq_none hge
        unfold QuizEngine.current at hc
        rw [hnone] at hc
        cases hc
      simp only [QuizEngine.submit, hc, Except.ok.injEq, Prod.mk.injEq] at h
      obtain ⟨he, -⟩ := h
      subst he
      constructor
      · dsimp only
        split
        · exact Nat.succ_le_succ hinv.1
        · exact Nat.le_succ_of_le hinv.1
      · exact Nat.succ_le_of_lt hidx
  · intro e hinv
    unfold QuizEngine.is_finished QuizEngine.total
    simp only [ge_iff_le, decide_eq_true_eq]
    exact ⟨fun hge => le_antisymm hinv.2 hge, fun heq => heq.ge⟩

/-- C3 witness: the finished-iff-position-equals-total equivalence at
the concrete Idle engine, whose invariant holds trivially. -/
theorem session_invariants_witness :
    QuizEngine.is_finished idleEngine = true ↔
      idleEngine.index = idleEngine.order.length :=
  session_invariants.2.2 idleEngine ⟨Nat.zero_le _, Nat.zero_le _⟩

/-- C4: a successful `start` under a permuting rng yields
`total = clamp(requestedCount, 1, poolSize)` and an order that is a
prefix of a permutation of the pool's indices: no duplicate entries,
and every entry is a valid index into the pool. -/
theorem start_order_clamp (e e' : QuizEngine) (c d : String) (n : Int)
    (now : ℚ) (hperm : ∀ l, (e.rng l).Perm l)
    (h : e.start c d n now = .ok e') :
    e'.total = clampCount n e'.pool.length ∧
    e'.order.Nodup ∧ OrderValid e' :=
  start_ok_order e e' c d n now hperm h

/-- The engine the concrete Idle engine becomes after
`start("Any", "Any", 5)` at time 0 with the identity shuffle. -/
def startedEngine : QuizEngine :=
  { questions_all := [mathQuestion], rng := id, pool := [mathQuestion],
    order := [0], index := 0, score := 0, started_at := 0,
    category := "Any", difficulty := "Any" }

/-- C4 witness: starting the concrete Idle engine with requested count
5 over a pool of one question clamps the total to 1 with order [0]. -/
theorem start_order_clamp_witness :
    startedEngine.total = clampCount 5 startedEngine.pool.length ∧
    startedEngine.order.Nodup ∧ OrderValid startedEngine :=
  start_order_clamp idleEngine startedEngine "Any" "Any" 5 0
    (fun l => List.Perm.refl l) (by rfl)

/-- C5: on an unfinished session (current question `q` in range),
`submit` advances the position by exactly one, increments the score by
exactly one iff the selection is exactly string-equal to `q.answer`
(a null selection never is), leaves the score unchanged otherwise, and
returns whether the answer was correct. -/
theorem submit_spec (e : QuizEngine) (q : Question) (sel : Option String)
    (hq : e.current = some q) :
    e.submit sel =
      .ok ({ e with score := if selEq sel q.answer then e.score + 1
                             else e.score,
                    index := e.index + 1 }, selEq sel q.answer) ∧
    (selEq sel q.answer = true ↔ sel = some q.answer) ∧
    selEq none q.answer = false := by
  refine ⟨?_, ?_, rfl⟩
  · simp only [QuizEngine.submit, hq]
  · cases sel with
    | none => simp [selEq]
    | some s => simp [selEq]

/-- C5 witness: on the concrete started engine, submitting the correct
answer "2" of the Math question returns true with the score bumped. -/
theorem submit_spec_witness :
    (startedEngine.submit (some "2") =
      .ok ({ startedEngine with
               score := if selEq (some "2") mathQuestion.answer then
                          startedEngine.score + 1
                        else startedEngine.score,
               index := startedEngine.index + 1 },
           selEq (some "2") mathQuestion.answer) ∧
    (selEq (some "2") mathQuestion.answer = true ↔
      (some "2" : Option String) = some mathQuestion.answer) ∧
    selEq none mathQuestion.answer = false) :=
  submit_spec startedEngine mathQuestion (some "2") (by rfl)

/-- Helper: while enough questions remain and every order entry is in
range, a run of `submit` calls succeeds and advances the position by
the number of calls, leaving order and pool untouched. -/
theorem submitRun_ok (sels : List (Option String)) :
    ∀ e : QuizEngine, OrderValid e →
      e.index + sels.length ≤ e.order.length →
      ∃ e', submitRun e sels = .ok e' ∧
        e'.index = e.index + sels.length ∧
        e'.order = e.order ∧ e'.pool = e.pool := by
  induction sels with
  | nil =>
    intro e hov hlen
    exact ⟨e, rfl, (Nat.add_zero _).symm, rfl, rfl⟩
  | cons s rest ih =>
    intro e hov hlen
    have hidx : e.index < e.order.length := by
      have := hlen
      simp only [List.length_cons] at this
      omega
    have hget : e.order[e.index]? = some e.order[e.index] :=
      List.getElem?_eq_getElem hidx
    have hpoolidx : e.order[e.index] < e.pool.length :=
      hov e.order[e.index] (e.order.getElem_mem hidx)
    have hpget : e.pool[e.order[e.index]]? = some e.pool[e.order[e.index]] :=
      List.getElem?_eq_getElem hpoolidx
    have hcur : e.current = some e.pool[e.order[e.index]] := by
      unfold QuizEngine.current
      rw [hget]
      exact hpget
    set q := e.pool[e.order[e.index]] with hqdef
    set e1 : QuizEngine :=
      { e with score := if selEq s q.answer then e.score + 1 else e.score,
               index := e.index + 1 } with he1
    have hsub : e.submit s = .ok (e1, selEq s q.answer) := by
      simp only [QuizEngine.submit, hcur]
    have hov1 : OrderValid e1 := hov
    have hlen1 : e1.index + rest.length ≤ e1.order.length := by
      simp only [he1, List.length_cons] at hlen ⊢
      omega
    obtain ⟨e', hrun, hidx', hord, hpool⟩ := ih e1 hov1 hlen1
    refine ⟨e', ?_, ?_, hord, hpool⟩
    · unfold submitRun
      rw [hsub]
      exact hrun
    · rw [hidx']
      simp only [he1, List.length_cons]
      omega

/-- C6: for a session started with `total` questions, a run of exactly
`total` successful `submit` calls leaves the session finished, and a
run of fewer leaves it unfinished; in general (under the session
invariant established by `start`) finishing is equivalent to the
position reaching `total`. -/
theorem finished_after_total (e e' : QuizEngine) (c d : String) (n : Int)
    (now : ℚ) (sels : List (Option String))
    (hperm : ∀ l, (e.rng l).Perm l)
    (hstart : e.start c d n now = .ok e')
    (hlen : sels.length ≤ e'.total) :
    ∃ e'', submitRun e' sels = .ok e'' ∧
      e''.index = sels.length ∧
      (e''.is_finished = true ↔ sels.length = e'.total) ∧
      (sels.length < e'.total → e''.is_finished = false) := by
  obtain ⟨hpool, horder, hidx0, hsc, hst, hcat, hdiff, hrng, hqa, hne⟩ :=
    start_ok_fields e e' c d n now hstart
  obtain ⟨-, -, hov⟩ := start_ok_order e e' c d n now hperm hstart
  have hlen' : e'.index + sels.length ≤ e'.order.length := by
    rw [hidx0]
    simpa [QuizEngine.total] using hlen
  obtain ⟨e'', hrun, hidx'', hord, hpl⟩ := submitRun_ok sels e' hov hlen'
  have hidxlen : e''.index = sels.length := by rw [hidx'', hidx0]; omega
  refine ⟨e'', hrun, hidxlen, ?_, ?_⟩
  · unfold QuizEngine.is_finished QuizEngine.total
    rw [hord, hidxlen]
    simp only [ge_iff_le, decide_eq_true_eq]
    unfold QuizEngine.total at hlen
    constructor
    · intro hge
      omega
    · intro heq
      omega
  · intro hlt
    unfold QuizEngine.is_finished QuizEngine.total
    rw [hord, hidxlen]
    unfold QuizEngine.total at hlt
    simp only [ge_iff_le, decide_eq_false_iff_not, not_le]
    omega

/-- C6 witness: the concrete started session has one question; after
the single submission of its correct answer the session is finished. -/
theorem finished_after_total_witness :
    ∃ e'', submitRun startedEngine [some "2"] = .ok e'' ∧
      e''.index = [some (String.mk ['2'])].length ∧
      (e''.is_finished = true ↔
        [some (String.mk ['2'])].length = startedEngine.total) ∧
      ([some (String.mk ['2'])].length < startedEngine.total →
        e''.is_finished = false) :=
  finished_after_total idleEngine startedEngine "Any" "Any" 5 0 [some "2"]
    (fun l => List.Perm.refl l) (by rfl) (by decide)

/-- C7: `duration_seconds` is the elapsed time since the start
timestamp, floored at 0 and then truncated to whole seconds; it is
never negative and is monotonically non-decreasing in the observation
time within a session. -/
theorem duration_seconds_spec (e : QuizEngine) (t1 t2 : ℚ) (h : t1 ≤ t2) :
    e.duration_seconds t1 = Int.floor (max 0 (t1 - e.started_at)) ∧
    0 ≤ e.duration_seconds t1 ∧
    e.duration_seconds t1 ≤ e.duration_seconds t2 := by
  refine ⟨rfl, ?_, ?_⟩
  · exact Int.floor_nonneg.mpr (le_max_left 0 _)
  · refine Int.floor_le_floor ?_
    exact max_le_max (le_refl 0) (sub_le_sub_right h _)

/-- C7 witness: observation times 3 and 7 on the concrete started
session. -/
theorem duration_seconds_spec_witness :
    (startedEngine.duration_seconds 3 =
      Int.floor (max 0 ((3 : ℚ) - startedEngine.started_at)) ∧
    0 ≤ startedEngine.duration_seconds 3 ∧
    startedEngine.duration_seconds 3 ≤ startedEngine.duration_seconds 7) :=
  duration_seconds_spec startedEngine 3 7 (by norm_num)

/-- C8: appending an attempt record and retrieving with `recent 1`
round-trips: the single returned row is exactly the appended record,
newest first. -/
theorem attempt_roundtrip (db : List Attempt) (ts c d : String)
    (s t dur : Int) :
    recent_attempts (save_attempt db ts c d s t dur) 1 =
      [{ timestamp := ts, category := c, difficulty := d, score := s,
         total := t, duration_seconds := dur }] := by
  unfold recent_attempts save_attempt
  simp

/-- C9: on a finished session (position at or past the end of the
order, including the empty order of a never-started or reset engine),
`submit` raises `IndexError` from the out-of-range current-question
lookup before any mutation, so no state change occurs; and a reset
engine is indeed in this finished/idle condition. -/
theorem submit_finished_error (e : QuizEngine) (sel : Option String)
    (h : e.is_finished = true) :
    e.submit sel = .error .indexError ∧
    (QuizEngine.reset_state e).is_finished = true := by
  refine ⟨?_, rfl⟩
  have hge : e.order.length ≤ e.index := by
    have := h
    unfold QuizEngine.is_finished QuizEngine.total at this
    simpa using this
  have hnone : e.order[e.index]? = none := List.getElem?_eq_none hge
  have hcur : e.current = none := by
    unfold QuizEngine.current
    rw [hnone]
  simp only [QuizEngine.submit, hcur]

/-- C9 witness: the concrete Idle engine (empty order, position 0) is
finished, and submitting against it raises. -/
theorem submit_finished_error_witness :
    (idleEngine.submit (some "2") = .error .indexError ∧
     (QuizEngine.reset_state idleEngine).is_finished = true) :=
  submit_finished_error idleEngine (some "2") (by rfl)

/-- C10: after `reset_state` (hence also after construction, which
calls it) the start timestamp is 0, so `duration_seconds` at a
wall-clock time at least one second past the epoch returns the current
epoch time truncated to whole seconds — at least 1, not 0. -/
theorem idle_duration_epoch (e : QuizEngine) (now : ℚ) (h : 1 ≤ now) :
    (QuizEngine.reset_state e).started_at = 0 ∧
    (QuizEngine.reset_state e).duration_seconds now = Int.floor now ∧
    1 ≤ (QuizEngine.reset_state e).duration_seconds now := by
  refine ⟨rfl, ?_, ?_⟩
  · unfold QuizEngine.duration_seconds QuizEngine.reset_state
    have h0 : (0 : ℚ) ≤ now := le_trans (by norm_num) h
    simp [max_eq_right, h0]
  · unfold QuizEngine.duration_seconds QuizEngine.reset_state
    have h0 : (0 : ℚ) ≤ now := le_trans (by norm_num) h
    rw [sub_zero, max_eq_right h0]
    exact Int.le_floor.mpr (by exact_mod_cast h)

/-- C10 witness: an engine reset from the concrete started engine,
observed at epoch time 1700000000 seconds. -/
theorem idle_duration_epoch_witness :
    ((QuizEngine.reset_state startedEngine).started_at = 0 ∧
    (QuizEngine.reset_state startedEngine).duration_seconds 1700000000 =
      Int.floor (1700000000 : ℚ) ∧
    1 ≤ (QuizEngine.reset_state startedEngine).duration_seconds 1700000000) :=
  idle_duration_epoch startedEngine 1700000000 (by norm_num)
